import Mathlib

/-!
Verification of the leveldb utility layer: the arena allocator
(src/util/arena.h, src/util/arena.cc), the Lehmer PRNG (src/util/random.h)
and the byte-range view (src/include/leveldb/slice.h), shallowly embedded
as executable Lean definitions.

Machine model: an LP64 platform (sizeof(void*) = sizeof(char*) = 8).
Pointers are modelled as natural-number addresses.  The C++ heap
(new char[n]) is modelled as a bump allocator that returns fresh storage
beyond every previously handed-out byte, aligned to MIN_ALIGN; this captures
the two guarantees the code relies on: live heap blocks are pairwise
disjoint, and freshly allocated blocks are suitably aligned.
-/

namespace Leveldb

/-- Model parameter: sizeof(char*) on the modelled LP64 platform. -/
def ptrSize : Nat := 8

/-- Source: `static const int kBlockSize = 4096;` (arena.cc). -/
def kBlockSize : Nat := 4096

/-- Source: `const int align = (sizeof(void*) > 8) ? sizeof(void*) : 8;`
(arena.cc, AllocateAligned). -/
def align : Nat := if ptrSize > 8 then ptrSize else 8

/-- Heap model: the base address the system allocator returns for a fresh
block when `h` is the first address beyond all storage handed out so far.
The returned base is MIN_ALIGN-aligned, as `new char[]` guarantees. -/
def heapAlloc (h : Nat) : Nat := h + (align - h % align) % align

/-- Arena state: the three data members of `class Arena` (arena.h) plus the
heap-model cursor `heap_next`.  `blocks` records (base, size) of every block
in `push_back` order; the size component models the per-block byte count the
arena requested from the heap. -/
structure Arena where
  alloc_ptr : Nat
  alloc_bytes_remaining : Nat
  blocks : List (Nat × Nat)
  memory_usage : Nat
  heap_next : Nat

/-- Source: `Arena::Arena() : alloc_ptr_(nullptr), alloc_bytes_remaining_(0),
memory_usage_(0) {}`.  `h0` is the arbitrary initial heap cursor. -/
def Arena.init (h0 : Nat) : Arena :=
  { alloc_ptr := 0, alloc_bytes_remaining := 0, blocks := [],
    memory_usage := 0, heap_next := h0 }

/-- Source: `Arena::AllocateNewBlock` (arena.cc lines 80-95): `new` the block,
`push_back` its address, and add `block_bytes + sizeof(char*)` to
`memory_usage_`. -/
def Arena.AllocateNewBlock (a : Arena) (block_bytes : Nat) : Nat × Arena :=
  let result := heapAlloc a.heap_next
  (result,
   { a with blocks := a.blocks ++ [(result, block_bytes)],
            memory_usage := a.memory_usage + (block_bytes + ptrSize),
            heap_next := result + block_bytes })

/-- Source: `Arena::AllocateFallback` (arena.cc lines 21-47). -/
def Arena.AllocateFallback (a : Arena) (bytes : Nat) : Nat × Arena :=
  if bytes > kBlockSize / 4 then
    a.AllocateNewBlock bytes
  else
    let r := a.AllocateNewBlock kBlockSize
    (r.1, { r.2 with alloc_ptr := r.1 + bytes,
                     alloc_bytes_remaining := kBlockSize - bytes })

/-- Source: `inline char* Arena::Allocate(size_t bytes)` (arena.h lines
73-89).  Precondition `bytes > 0` is carried by the theorems, not the
definition, mirroring the `assert`. -/
def Arena.Allocate (a : Arena) (bytes : Nat) : Nat × Arena :=
  if bytes ≤ a.alloc_bytes_remaining then
    (a.alloc_ptr,
     { a with alloc_ptr := a.alloc_ptr + bytes,
              alloc_bytes_remaining := a.alloc_bytes_remaining - bytes })
  else
    a.AllocateFallback bytes

/-- The padding `slop` computed by `Arena::AllocateAligned` (arena.cc lines
58-59).  The source computes `current_mod` as `alloc_ptr_ & (align - 1)`;
since `align` is a power of two this equals `alloc_ptr_ % align`. -/
def Arena.slop (a : Arena) : Nat :=
  let current_mod := a.alloc_ptr % align
  if current_mod == 0 then 0 else align - current_mod

/-- Source: `Arena::AllocateAligned` (arena.cc lines 49-78).  The source
computes `size_t needed = bytes + slop;` in unsigned 64-bit arithmetic,
which wraps modulo 2^64; the wrap is modelled explicitly, so for
`bytes >= 2^64 - slop` the comparison sees the small wrapped value and the
request is served from the active block exactly as the program does. -/
def Arena.AllocateAligned (a : Arena) (bytes : Nat) : Nat × Arena :=
  let needed := (bytes + a.slop) % 2 ^ 64
  if needed ≤ a.alloc_bytes_remaining then
    (a.alloc_ptr + a.slop,
     { a with alloc_ptr := a.alloc_ptr + needed,
              alloc_bytes_remaining := a.alloc_bytes_remaining - needed })
  else
    a.AllocateFallback bytes

/-- Source: `Arena::MemoryUsage` (arena.h lines 41-43), a relaxed atomic
load of `memory_usage_`. -/
def Arena.MemoryUsage (a : Arena) : Nat := a.memory_usage

/-- One client request against the arena: `Allocate` or `AllocateAligned`. -/
inductive Op where
  | alloc (bytes : Nat)
  | allocAligned (bytes : Nat)

/-- The requested size of an operation. -/
def Op.bytes : Op → Nat
  | .alloc n => n
  | .allocAligned n => n

/-- Execute one request, returning the pointer and the new arena state. -/
def Arena.runOp (a : Arena) : Op → Nat × Arena
  | .alloc n => a.Allocate n
  | .allocAligned n => a.AllocateAligned n

/-- Execute a sequence of requests, collecting each returned byte range as
a (pointer, requested-size) pair. -/
def Arena.runOps (a : Arena) : List Op → List (Nat × Nat) × Arena
  | [] => ([], a)
  | op :: ops =>
      let r := a.runOp op
      let rest := r.2.runOps ops
      ((r.1, op.bytes) :: rest.1, rest.2)

/-- An arena state reachable from a fresh arena by successful allocations
with positive sizes. -/
def Arena.Reachable (a : Arena) : Prop :=
  ∃ h0 ops, (∀ op ∈ ops, 0 < Op.bytes op) ∧ ((Arena.init h0).runOps ops).2 = a

/-- Source: `static const uint32_t M = 2147483647;` (random.h). -/
def M : Nat := 2147483647

/-- Source: `static const uint64_t A = 16807;` (random.h). -/
def A : Nat := 16807

/-- Source: `uint32_t Random::Next()` (random.h lines 45-95) acting on the
seed.  `product` is the exact 64-bit product (no overflow: the factors are
below 2^32 and 2^15).  `product >> 31` is division by 2^31, `product & M`
is the low 31 bits, and the sum is truncated to uint32 by the cast. -/
def Random.Next (seed : Nat) : Nat :=
  let product := seed * A
  let s := (product / 2 ^ 31 + product % 2 ^ 31) % 2 ^ 32
  if s > M then s - M else s

/-- Source: the constructor `Random(uint32_t s)` (random.h lines 38-43):
mask to the low 31 bits, then remap the bad seeds 0 and M to 1. -/
def Random.init (s : Nat) : Nat :=
  let seed := s % 2 ^ 31
  if seed = 0 ∨ seed = 2147483647 then 1 else seed

/-- Source: `uint32_t Uniform(int n) { return Next() % n; }` returning the
drawn value together with the advanced seed. -/
def Random.Uniform (seed n : Nat) : Nat × Nat :=
  let s := Random.Next seed
  (s % n, s)

/-- Source: `bool OneIn(int n) { return (Next() % n) == 0; }` returning the
result together with the advanced seed. -/
def Random.OneIn (seed n : Nat) : Bool × Nat :=
  let s := Random.Next seed
  (decide (s % n = 0), s)

/-- Source: `memcmp(p, q, len)` on two byte sequences of equal length
`len`, returning the sign of the first difference (C guarantees only the
sign). -/
def memcmp : List Nat → List Nat → Int
  | x :: xs, y :: ys =>
      if x < y then -1 else if y < x then 1 else memcmp xs ys
  | _, _ => 0

/-- A slice is a view of `size_` bytes from `data_`; the view's content is
the byte list `data_[0, size_)`. -/
structure Slice where
  data : List Nat

/-- Source: `size_t size() const { return size_; }`. -/
def Slice.size (s : Slice) : Nat := s.data.length

/-- Source: `inline int Slice::compare(const Slice& b)` (slice.h lines
122-132): memcmp over the common length, then tie-break on length. -/
def Slice.compare (s b : Slice) : Int :=
  let min_len := if s.size < b.size then s.size else b.size
  let r := memcmp (s.data.take min_len) (b.data.take min_len)
  if r = 0 then
    if s.size < b.size then -1
    else if b.size < s.size then 1
    else 0
  else r

/-- Source: `bool starts_with(const Slice& x)` (slice.h lines 94-96):
`size_ >= x.size_` and memcmp of the first `x.size_` bytes is zero. -/
def Slice.starts_with (s x : Slice) : Bool :=
  decide (x.size ≤ s.size) &&
    decide (memcmp (s.data.take x.size) (x.data.take x.size) = 0)

/-! ## Slice lemmas -/

/-- memcmp of a byte sequence against itself is zero. -/
theorem memcmp_self : ∀ xs : List Nat, memcmp xs xs = 0
  | [] => rfl
  | x :: xs => by simp [memcmp, memcmp_self xs]

/-- On sequences of equal length, memcmp returning zero means the bytes are
equal. -/
theorem memcmp_eq_zero : ∀ xs ys : List Nat, xs.length = ys.length →
    memcmp xs ys = 0 → xs = ys
  | [], [], _, _ => rfl
  | [], _ :: _, h, _ => by simp at h
  | _ :: _, [], h, _ => by simp at h
  | x :: xs, y :: ys, h, hm => by
    have hlen : xs.length = ys.length := by simpa using h
    by_cases h1 : x < y
    · simp [memcmp, h1] at hm
    · by_cases h2 : y < x
      · simp [memcmp, h1, h2] at hm
      · have hxy : x = y := Nat.le_antisymm (Nat.le_of_not_lt h2) (Nat.le_of_not_lt h1)
        have hm2 : memcmp xs ys = 0 := by simpa [memcmp, h1, h2] using hm
        rw [hxy, memcmp_eq_zero xs ys hlen hm2]

/-- C8: `s.starts_with(x)` holds iff `s.compare(x) >= 0`, `s.size() >=
x.size()`, and the first `x.size()` bytes of `s` equal the bytes of `x`. -/
theorem starts_with_iff (s x : Slice) :
    s.starts_with x = true ↔
      (0 ≤ s.compare x ∧ x.size ≤ s.size ∧ s.data.take x.size = x.data) := by
  have hx : x.data.take x.size = x.data := List.take_length x.data
  constructor
  · intro h
    have h' := h
    simp only [Slice.starts_with, Bool.and_eq_true, decide_eq_true_eq] at h'
    obtain ⟨hle, hm⟩ := h'
    have hlen : (s.data.take x.size).length = x.data.length := by
      simp [Slice.size] at hle ⊢
      omega
    rw [hx] at hm
    have heq : s.data.take x.size = x.data := memcmp_eq_zero _ _ hlen hm
    refine ⟨?_, hle, heq⟩
    have hnlt : ¬ s.size < x.size := Nat.not_lt.mpr hle
    simp only [Slice.compare, hnlt, if_false]
    rw [hx, heq, memcmp_self]
    simp
    split <;> simp
  · rintro ⟨-, hle, heq⟩
    simp only [Slice.starts_with, Bool.and_eq_true, decide_eq_true_eq]
    exact ⟨hle, by rw [hx, heq, memcmp_self]⟩

/-! ## PRNG lemmas -/

/-- C7: any 32-bit input whose low 31 bits are 0 or 2^31 - 1 is sanitized
by the constructor to seed 1, so the first draw of Next is 16807. -/
theorem init_bad_seed_first_draw (s : Nat) (_hs : s < 2 ^ 32)
    (h : s % 2 ^ 31 = 0 ∨ s % 2 ^ 31 = 2 ^ 31 - 1) :
    Random.Next (Random.init s) = 16807 := by
  have h1 : Random.init s = 1 := by
    simp only [Random.init]
    split
    · rfl
    · next hcond => omega
  rw [h1]
  decide

/-- Witness for C7 at the concrete inputs 0 and 2^31 - 1. -/
theorem init_bad_seed_first_draw_witness :
    Random.Next (Random.init 0) = 16807 ∧
      Random.Next (Random.init 2147483647) = 16807 :=
  ⟨init_bad_seed_first_draw 0 (by decide) (Or.inl (by decide)),
   init_bad_seed_first_draw 2147483647 (by decide) (Or.inr (by decide))⟩

/-- M and A are coprime: A is not a multiple of the (prime) modulus. -/
theorem coprime_M_A : Nat.Coprime 2147483647 16807 := by norm_num

/-- The product of a legal seed with A is not a multiple of M. -/
theorem seed_mul_A_mod_ne_zero (s : Nat) (h1 : 1 ≤ s) (h2 : s < 2147483647) :
    s * 16807 % 2147483647 ≠ 0 := by
  intro h0
  have hdvd : (2147483647 : Nat) ∣ s * 16807 := Nat.dvd_of_mod_eq_zero h0
  have hds : (2147483647 : Nat) ∣ s := coprime_M_A.dvd_of_dvd_mul_right hdvd
  have := Nat.le_of_dvd (by omega) hds
  omega

/-- The shift-and-mask reduction in `Random::Next` computes the exact
Lehmer step `(seed * A) mod M` for every legal seed. -/
theorem Next_eq_formula (s : Nat) (h1 : 1 ≤ s) (h2 : s ≤ 2147483646) :
    Random.Next s = s * A % M := by
  have hne : s * 16807 % 2147483647 ≠ 0 :=
    seed_mul_A_mod_ne_zero s h1 (by omega)
  have hp : s * 16807 ≤ 2147483646 * 16807 := Nat.mul_le_mul_right _ h2
  have hq : s * 16807 / 2 ^ 31 ≤ 16806 := by omega
  have hr : s * 16807 % 2 ^ 31 < 2 ^ 31 := Nat.mod_lt _ (by norm_num)
  have hmod32 : (s * 16807 / 2 ^ 31 + s * 16807 % 2 ^ 31) % 2 ^ 32
      = s * 16807 / 2 ^ 31 + s * 16807 % 2 ^ 31 := Nat.mod_eq_of_lt (by omega)
  simp only [Random.Next, M, A]
  rw [hmod32]
  split <;> omega

/-- C5: the optimized `Next()` (62-bit product, shift-and-mask reduction,
one conditional subtraction of M) returns exactly `(s * 16807) mod (2^31-1)`
for every legal seed, and a generator seeded with 1 draws 16807, 282475249,
1622650073. -/
theorem Next_refines_direct_formula (s : Nat) (h1 : 1 ≤ s)
    (h2 : s ≤ 2 ^ 31 - 2) :
    Random.Next s = s * A % M ∧
    Random.Next 1 = 16807 ∧
    Random.Next (Random.Next 1) = 282475249 ∧
    Random.Next (Random.Next (Random.Next 1)) = 1622650073 :=
  ⟨Next_eq_formula s h1 (by omega), by decide, by decide, by decide⟩

/-- Witness for C5 at seed 1. -/
theorem Next_refines_direct_formula_witness :
    Random.Next 1 = 1 * A % M ∧
    Random.Next 1 = 16807 ∧
    Random.Next (Random.Next 1) = 282475249 ∧
    Random.Next (Random.Next (Random.Next 1)) = 1622650073 :=
  Next_refines_direct_formula 1 (by decide) (by decide)

/-- C10: `OneIn(n)` advances the seed by exactly one `Next()` step, returns
true exactly when `Uniform(n)` from the same starting seed returns 0, and
leaves the generator in the same final state as that `Uniform(n)` call. -/
theorem OneIn_eq_Uniform_eq_zero (seed n : Nat) (_hn : 0 < n) :
    (Random.OneIn seed n).2 = Random.Next seed ∧
    ((Random.OneIn seed n).1 = true ↔ (Random.Uniform seed n).1 = 0) ∧
    (Random.OneIn seed n).2 = (Random.Uniform seed n).2 := by
  refine ⟨rfl, ?_, rfl⟩
  simp [Random.OneIn, Random.Uniform]

/-- Witness for C10 at seed 1, n = 2. -/
theorem OneIn_eq_Uniform_eq_zero_witness :
    (Random.OneIn 1 2).2 = Random.Next 1 ∧
    ((Random.OneIn 1 2).1 = true ↔ (Random.Uniform 1 2).1 = 0) ∧
    (Random.OneIn 1 2).2 = (Random.Uniform 1 2).2 :=
  OneIn_eq_Uniform_eq_zero 1 2 (by decide)

/-! ## Arena lemmas -/

/-- On the modelled LP64 platform MIN_ALIGN evaluates to 8. -/
theorem align_eq : align = 8 := rfl

/-- The heap model hands out MIN_ALIGN-aligned block bases. -/
theorem heapAlloc_aligned (h : Nat) : heapAlloc h % align = 0 := by
  simp only [heapAlloc, align_eq]
  omega

/-- A fresh block base lies at or beyond the heap cursor. -/
theorem heapAlloc_le (h : Nat) : h ≤ heapAlloc h := by
  simp only [heapAlloc]
  omega

/-- The alignment padding is always smaller than MIN_ALIGN. -/
theorem slop_lt_align (a : Arena) : a.slop < align := by
  simp only [Arena.slop, align_eq]
  split <;> rename_i h <;> simp only [beq_iff_eq] at h <;> omega

/-- Bases returned by the fallback path come from a fresh block, hence are
aligned. -/
theorem AllocateFallback_aligned (a : Arena) (n : Nat) :
    (a.AllocateFallback n).1 % align = 0 := by
  simp only [Arena.AllocateFallback, Arena.AllocateNewBlock]
  split <;> exact heapAlloc_aligned _

/-- Every pointer returned by AllocateAligned has zero residue modulo
MIN_ALIGN, in any arena state. -/
theorem AllocateAligned_result_aligned (a : Arena) (n : Nat) :
    (a.AllocateAligned n).1 % align = 0 := by
  simp only [Arena.AllocateAligned]
  split
  · simp only [Arena.slop, align_eq]
    split <;> rename_i hmod <;> simp only [beq_iff_eq] at * <;> omega
  · exact AllocateFallback_aligned a n

/-- C3: for every n > 0 and every reachable arena state (with the heap
model returning MIN_ALIGN-aligned fresh blocks), the pointer returned by
AllocateAligned(n) has address with zero residue modulo MIN_ALIGN. -/
theorem AllocateAligned_zero_residue (a : Arena) (n : Nat)
    (_hr : a.Reachable) (_hn : 0 < n) :
    (a.AllocateAligned n).1 % align = 0 :=
  AllocateAligned_result_aligned a n

/-- Witness for C3: a fresh arena is reachable; AllocateAligned(3) on it
returns an aligned pointer. -/
theorem AllocateAligned_zero_residue_witness :
    ((Arena.init 0).AllocateAligned 3).1 % align = 0 :=
  AllocateAligned_zero_residue (Arena.init 0) 3
    ⟨0, [], by simp, rfl⟩ (by decide)

/-- C4 counterexample: after `Allocate(1)` on a fresh arena the active
block still has 4095 free bytes, so `Allocate(2000)` (with 2000 > 1024) is
served from the active block: no block is appended and MemoryUsage does not
grow by 2000 + pointer size. -/
theorem Allocate_large_counterexample :
    ¬ ((((Arena.init 0).Allocate 1).2.Allocate 2000).2.MemoryUsage =
         ((Arena.init 0).Allocate 1).2.MemoryUsage + (2000 + ptrSize) ∧
       (((Arena.init 0).Allocate 1).2.Allocate 2000).2.blocks.length =
         ((Arena.init 0).Allocate 1).2.blocks.length + 1) := by decide

/-- C4 (amended): for every n > 1024 that moreover exceeds the active
block's remaining bytes (so that the fallback path is taken at all),
Allocate(n) appends a dedicated block of exactly n bytes, increases
MemoryUsage by exactly n + pointer_size, and leaves the cursor and the
remaining-byte count unchanged; on a fresh arena (where the remaining count
is 0) this always applies, and a subsequent Allocate(1) still triggers
creation of a standard 4096-byte block. -/
theorem Allocate_large_dedicated (a : Arena) (n : Nat)
    (h1 : 1024 < n) (h2 : a.alloc_bytes_remaining < n) :
    (a.Allocate n).2.blocks = a.blocks ++ [((a.Allocate n).1, n)] ∧
    (a.Allocate n).2.MemoryUsage = a.MemoryUsage + (n + ptrSize) ∧
    (a.Allocate n).2.alloc_ptr = a.alloc_ptr ∧
    (a.Allocate n).2.alloc_bytes_remaining = a.alloc_bytes_remaining ∧
    (∀ h0 : Nat,
      (((Arena.init h0).Allocate n).2.Allocate 1).2.blocks =
        ((Arena.init h0).Allocate n).2.blocks ++
          [(heapAlloc ((Arena.init h0).Allocate n).2.heap_next, kBlockSize)]) := by
  have hq : kBlockSize / 4 = 1024 := rfl
  have hn : ¬ n ≤ a.alloc_bytes_remaining := by omega
  have hgt : n > kBlockSize / 4 := by omega
  refine ⟨?_, ?_, ?_, ?_, ?_⟩
  · simp [Arena.Allocate, if_neg hn, Arena.AllocateFallback, if_pos hgt,
      Arena.AllocateNewBlock]
  · simp [Arena.Allocate, if_neg hn, Arena.AllocateFallback, if_pos hgt,
      Arena.AllocateNewBlock, Arena.MemoryUsage]
  · simp [Arena.Allocate, if_neg hn, Arena.AllocateFallback, if_pos hgt,
      Arena.AllocateNewBlock]
  · simp [Arena.Allocate, if_neg hn, Arena.AllocateFallback, if_pos hgt,
      Arena.AllocateNewBlock]
  · intro h0
    have hne : ¬ n = 0 := by omega
    have hgt' : 1024 < n := h1
    simp [Arena.Allocate, Arena.AllocateFallback, Arena.AllocateNewBlock,
      Arena.init, kBlockSize, hne, hgt']

/-- Witness for the amended C4 at a fresh arena and n = 2048. -/
theorem Allocate_large_dedicated_witness :
    ((Arena.init 0).Allocate 2048).2.blocks =
      (Arena.init 0).blocks ++ [(((Arena.init 0).Allocate 2048).1, 2048)] ∧
    ((Arena.init 0).Allocate 2048).2.MemoryUsage =
      (Arena.init 0).MemoryUsage + (2048 + ptrSize) ∧
    ((Arena.init 0).Allocate 2048).2.alloc_ptr = (Arena.init 0).alloc_ptr ∧
    ((Arena.init 0).Allocate 2048).2.alloc_bytes_remaining =
      (Arena.init 0).alloc_bytes_remaining ∧
    (∀ h0 : Nat,
      (((Arena.init h0).Allocate 2048).2.Allocate 1).2.blocks =
        ((Arena.init h0).Allocate 2048).2.blocks ++
          [(heapAlloc ((Arena.init h0).Allocate 2048).2.heap_next,
            kBlockSize)]) :=
  Allocate_large_dedicated (Arena.init 0) 2048 (by decide) (by decide)

/-- C9: a request served from the active block (Allocate with
0 < bytes <= remaining, or AllocateAligned with bytes + slop <= remaining)
changes neither MemoryUsage nor the block list; and for any request,
MemoryUsage changes exactly when a block is created, and then by exactly
block_bytes + sizeof(char*). -/
theorem serve_from_active_block_frame (a : Arena) (n : Nat) (_hn : 0 < n) :
    (n ≤ a.alloc_bytes_remaining →
      (a.Allocate n).2.MemoryUsage = a.MemoryUsage ∧
      (a.Allocate n).2.blocks = a.blocks) ∧
    (n + a.slop ≤ a.alloc_bytes_remaining →
      (a.AllocateAligned n).2.MemoryUsage = a.MemoryUsage ∧
      (a.AllocateAligned n).2.blocks = a.blocks) ∧
    (∀ op : Op,
      ((a.runOp op).2.MemoryUsage = a.MemoryUsage ∧
        (a.runOp op).2.blocks = a.blocks) ∨
      (∃ bb, (a.runOp op).2.blocks = a.blocks ++ [(heapAlloc a.heap_next, bb)] ∧
        (a.runOp op).2.MemoryUsage = a.MemoryUsage + (bb + ptrSize))) := by
  refine ⟨?_, ?_, ?_⟩
  · intro h
    simp [Arena.Allocate, if_pos h, Arena.MemoryUsage]
  · intro h
    have h' : (n + a.slop) % 2 ^ 64 ≤ a.alloc_bytes_remaining :=
      le_trans (Nat.mod_le _ _) h
    simp only [Arena.AllocateAligned]
    rw [if_pos h']
    simp [Arena.MemoryUsage]
  · intro op
    cases op with
    | alloc m =>
      simp only [Arena.runOp, Arena.Allocate]
      split
      · exact Or.inl (by simp [Arena.MemoryUsage])
      · simp only [Arena.AllocateFallback, Arena.AllocateNewBlock]
        split
        · exact Or.inr ⟨m, by simp [Arena.MemoryUsage]⟩
        · exact Or.inr ⟨kBlockSize, by simp [Arena.MemoryUsage]⟩
    | allocAligned m =>
      simp only [Arena.runOp, Arena.AllocateAligned]
      split
      · exact Or.inl (by simp [Arena.MemoryUsage])
      · simp only [Arena.AllocateFallback, Arena.AllocateNewBlock]
        split
        · exact Or.inr ⟨m, by simp [Arena.MemoryUsage]⟩
        · exact Or.inr ⟨kBlockSize, by simp [Arena.MemoryUsage]⟩

/-- Witness for C9 on a concrete arena state with 16 remaining bytes. -/
theorem serve_from_active_block_frame_witness :
    ((4 : Nat) ≤ (Arena.mk 4 16 [(0, 20)] 28 20).alloc_bytes_remaining →
      ((Arena.mk 4 16 [(0, 20)] 28 20).Allocate 4).2.MemoryUsage =
        (Arena.mk 4 16 [(0, 20)] 28 20).MemoryUsage ∧
      ((Arena.mk 4 16 [(0, 20)] 28 20).Allocate 4).2.blocks =
        (Arena.mk 4 16 [(0, 20)] 28 20).blocks) ∧
    ((4 : Nat) + (Arena.mk 4 16 [(0, 20)] 28 20).slop ≤
        (Arena.mk 4 16 [(0, 20)] 28 20).alloc_bytes_remaining →
      ((Arena.mk 4 16 [(0, 20)] 28 20).AllocateAligned 4).2.MemoryUsage =
        (Arena.mk 4 16 [(0, 20)] 28 20).MemoryUsage ∧
      ((Arena.mk 4 16 [(0, 20)] 28 20).AllocateAligned 4).2.blocks =
        (Arena.mk 4 16 [(0, 20)] 28 20).blocks) ∧
    (∀ op : Op,
      (((Arena.mk 4 16 [(0, 20)] 28 20).runOp op).2.MemoryUsage =
          (Arena.mk 4 16 [(0, 20)] 28 20).MemoryUsage ∧
        ((Arena.mk 4 16 [(0, 20)] 28 20).runOp op).2.blocks =
          (Arena.mk 4 16 [(0, 20)] 28 20).blocks) ∨
      (∃ bb, ((Arena.mk 4 16 [(0, 20)] 28 20).runOp op).2.blocks =
          (Arena.mk 4 16 [(0, 20)] 28 20).blocks ++
            [(heapAlloc (Arena.mk 4 16 [(0, 20)] 28 20).heap_next, bb)] ∧
        ((Arena.mk 4 16 [(0, 20)] 28 20).runOp op).2.MemoryUsage =
          (Arena.mk 4 16 [(0, 20)] 28 20).MemoryUsage + (bb + ptrSize))) :=
  serve_from_active_block_frame (Arena.mk 4 16 [(0, 20)] 28 20) 4 (by decide)

/-- The total number of bytes requested by a sequence of operations. -/
def sumBytes (ops : List Op) : Nat := (ops.map Op.bytes).sum

/-- One step of the usage accounting invariant: if the usage counter
dominates the requested total plus the active block's free bytes, it still
does after any single request. -/
theorem runOp_usage_step (a : Arena) (op : Op) (S : Nat)
    (hop : Op.bytes op ≤ 2 ^ 64 - 8)
    (h : S + a.alloc_bytes_remaining ≤ a.memory_usage) :
    S + Op.bytes op + (a.runOp op).2.alloc_bytes_remaining ≤
      (a.runOp op).2.memory_usage := by
  have hq : kBlockSize / 4 = 1024 := rfl
  have hs : a.slop < 8 := by
    have := slop_lt_align a
    rwa [align_eq] at this
  cases op with
  | alloc m =>
    simp only [Arena.runOp, Arena.Allocate, Op.bytes]
    split
    · next hle => simp only []; omega
    · next hgt =>
      simp only [Arena.AllocateFallback, Arena.AllocateNewBlock]
      split
      · next h1 => simp only []; omega
      · next h1 => simp only [kBlockSize] at *; omega
  | allocAligned m =>
    simp only [Op.bytes] at hop
    simp only [Arena.runOp, Arena.AllocateAligned, Op.bytes]
    split
    · next hle => simp only []; omega
    · next hgt =>
      simp only [Arena.AllocateFallback, Arena.AllocateNewBlock]
      split
      · next h1 => simp only []; omega
      · next h1 => simp only [kBlockSize] at *; omega

/-- The usage accounting invariant holds along any trace of requests whose
sizes cannot wrap the size_t computation in AllocateAligned. -/
theorem runOps_usage (ops : List Op) : ∀ (a : Arena) (S : Nat),
    (∀ op ∈ ops, Op.bytes op ≤ 2 ^ 64 - 8) →
    S + a.alloc_bytes_remaining ≤ a.memory_usage →
    S + sumBytes ops + (a.runOps ops).2.alloc_bytes_remaining ≤
      (a.runOps ops).2.memory_usage := by
  induction ops with
  | nil => intro a S _ h; simpa [Arena.runOps, sumBytes] using h
  | cons op ops ih =>
    intro a S hb h
    have hstep := runOp_usage_step a op S (hb op (List.mem_cons_self _ _)) h
    have hrec := ih (a.runOp op).2 (S + Op.bytes op)
      (fun o ho => hb o (List.mem_cons_of_mem _ ho)) hstep
    simp only [Arena.runOps, sumBytes, List.map_cons, List.sum_cons] at hrec ⊢
    omega

/-- C2 counterexample: the program itself violates the claimed lower
bound.  After Allocate(1) the cursor is at residue 1 so slop is 7; the
request AllocateAligned(2^64 - 5) wraps `size_t needed = bytes + slop` to
2, is served from the active block, and leaves MemoryUsage at 4104 while
the requested sum grows by about 2^64. -/
theorem usage_lower_bound_counterexample :
    ¬ (sumBytes [Op.alloc 1, Op.allocAligned (2 ^ 64 - 5)] ≤
        ((Arena.init 0).runOps
          [Op.alloc 1, Op.allocAligned (2 ^ 64 - 5)]).2.MemoryUsage) := by
  decide

/-- C2 (amended): after any sequence of successful Allocate and
AllocateAligned calls with positive requested sizes, each at most
2^64 - 8 so that `bytes + slop` cannot wrap around the size_t arithmetic
of AllocateAligned, MemoryUsage() is at least the sum of all bytes
requested so far. -/
theorem MemoryUsage_lower_bound (h0 : Nat) (ops : List Op)
    (_hpos : ∀ op ∈ ops, 0 < Op.bytes op)
    (hbound : ∀ op ∈ ops, Op.bytes op ≤ 2 ^ 64 - 8) :
    sumBytes ops ≤ ((Arena.init h0).runOps ops).2.MemoryUsage := by
  have h := runOps_usage ops (Arena.init h0) 0 hbound (by simp [Arena.init])
  simp only [Arena.MemoryUsage]
  omega

/-- Witness for C2 on the trace Allocate(1); Allocate(2000). -/
theorem MemoryUsage_lower_bound_witness :
    sumBytes [Op.alloc 1, Op.alloc 2000] ≤
      ((Arena.init 0).runOps [Op.alloc 1, Op.alloc 2000]).2.MemoryUsage :=
  MemoryUsage_lower_bound 0 [Op.alloc 1, Op.alloc 2000] (by decide) (by decide)

/-- Two byte ranges [p, p+n) given as (base, length) pairs are disjoint. -/
def RangesDisjoint (r1 r2 : Nat × Nat) : Prop :=
  r1.1 + r1.2 ≤ r2.1 ∨ r2.1 + r2.2 ≤ r1.1

/-- Invariant tying an arena state to the ranges handed out so far: they
are pairwise disjoint, they lie below the heap cursor, they avoid the free
region of the active block, and that free region lies below the heap
cursor. -/
def ArenaInv (a : Arena) (rs : List (Nat × Nat)) : Prop :=
  rs.Pairwise RangesDisjoint ∧
  (∀ r ∈ rs, r.1 + r.2 ≤ a.heap_next) ∧
  (∀ r ∈ rs,
    r.1 + r.2 ≤ a.alloc_ptr ∨ a.alloc_ptr + a.alloc_bytes_remaining ≤ r.1) ∧
  a.alloc_ptr + a.alloc_bytes_remaining ≤ a.heap_next

/-- Appending one element to a pairwise-disjoint list. -/
theorem pairwise_append_singleton {α : Type} (R : α → α → Prop)
    (rs : List α) (x : α) :
    (rs ++ [x]).Pairwise R ↔ rs.Pairwise R ∧ ∀ r ∈ rs, R r x := by
  simp [List.pairwise_append]

/-- The fallback path preserves the allocation invariant. -/
theorem AllocateFallback_inv (a : Arena) (n : Nat) (rs : List (Nat × Nat))
    (hI : ArenaInv a rs) :
    ArenaInv (a.AllocateFallback n).2 (rs ++ [((a.AllocateFallback n).1, n)]) := by
  obtain ⟨hpw, hbelow, hfree, hbound⟩ := hI
  have hhe := heapAlloc_le a.heap_next
  have hkb : kBlockSize = 4096 := rfl
  have hq : kBlockSize / 4 = 1024 := rfl
  simp only [Arena.AllocateFallback, Arena.AllocateNewBlock]
  split
  · next hgt =>
    refine ⟨?_, ?_, ?_, ?_⟩
    · rw [pairwise_append_singleton]
      refine ⟨hpw, fun r hr => ?_⟩
      have h1 := hbelow r hr
      simp only [RangesDisjoint]
      omega
    · intro r hr
      rcases List.mem_append.mp hr with h | h
      · have h1 := hbelow r h
        simp only []
        omega
      · simp only [List.mem_singleton] at h
        subst h
        simp only []
        omega
    · intro r hr
      rcases List.mem_append.mp hr with h | h
      · exact hfree r h
      · simp only [List.mem_singleton] at h
        subst h
        simp only []
        omega
    · simp only []
      omega
  · next hgt =>
    refine ⟨?_, ?_, ?_, ?_⟩
    · rw [pairwise_append_singleton]
      refine ⟨hpw, fun r hr => ?_⟩
      have h1 := hbelow r hr
      simp only [RangesDisjoint]
      omega
    · intro r hr
      rcases List.mem_append.mp hr with h | h
      · have h1 := hbelow r h
        simp only []
        omega
      · simp only [List.mem_singleton] at h
        subst h
        simp only []
        omega
    · intro r hr
      rcases List.mem_append.mp hr with h | h
      · have h1 := hbelow r h
        simp only []
        omega
      · simp only [List.mem_singleton] at h
        subst h
        simp only []
        omega
    · simp only []
      omega

/-- A single request of size at most 2^64 - 8 (so that `bytes + slop`
cannot wrap in AllocateAligned) preserves the allocation invariant,
recording the returned range. -/
theorem runOp_inv (a : Arena) (op : Op) (rs : List (Nat × Nat))
    (hop : Op.bytes op ≤ 2 ^ 64 - 8)
    (hI : ArenaInv a rs) :
    ArenaInv (a.runOp op).2 (rs ++ [((a.runOp op).1, Op.bytes op)]) := by
  obtain ⟨hpw, hbelow, hfree, hbound⟩ := hI
  have hs : a.slop < 8 := by
    have := slop_lt_align a
    rwa [align_eq] at this
  cases op with
  | alloc m =>
    simp only [Arena.runOp, Arena.Allocate, Op.bytes]
    split
    · next hle =>
      refine ⟨?_, ?_, ?_, ?_⟩
      · rw [pairwise_append_singleton]
        refine ⟨hpw, fun r hr => ?_⟩
        have h1 := hfree r hr
        simp only [RangesDisjoint]
        omega
      · intro r hr
        rcases List.mem_append.mp hr with h | h
        · have h1 := hbelow r h
          simp only []
          omega
        · simp only [List.mem_singleton] at h
          subst h
          simp only []
          omega
      · intro r hr
        rcases List.mem_append.mp hr with h | h
        · have h1 := hfree r h
          simp only [] at h1 ⊢
          omega
        · simp only [List.mem_singleton] at h
          subst h
          simp only []
          omega
      · simp only []
        omega
    · next hgt =>
      exact AllocateFallback_inv a m rs ⟨hpw, hbelow, hfree, hbound⟩
  | allocAligned m =>
    simp only [Op.bytes] at hop
    simp only [Arena.runOp, Arena.AllocateAligned, Op.bytes]
    split
    · next hle =>
      refine ⟨?_, ?_, ?_, ?_⟩
      · rw [pairwise_append_singleton]
        refine ⟨hpw, fun r hr => ?_⟩
        have h1 := hfree r hr
        simp only [RangesDisjoint]
        omega
      · intro r hr
        rcases List.mem_append.mp hr with h | h
        · have h1 := hbelow r h
          simp only []
          omega
        · simp only [List.mem_singleton] at h
          subst h
          simp only []
          omega
      · intro r hr
        rcases List.mem_append.mp hr with h | h
        · have h1 := hfree r h
          simp only [] at h1 ⊢
          omega
        · simp only [List.mem_singleton] at h
          subst h
          simp only []
          omega
      · simp only []
        omega
    · next hgt =>
      exact AllocateFallback_inv a m rs ⟨hpw, hbelow, hfree, hbound⟩

/-- The allocation invariant holds along any trace of requests whose
sizes cannot wrap the size_t computation in AllocateAligned. -/
theorem runOps_inv (ops : List Op) : ∀ (a : Arena) (rs : List (Nat × Nat)),
    (∀ op ∈ ops, Op.bytes op ≤ 2 ^ 64 - 8) →
    ArenaInv a rs → ArenaInv (a.runOps ops).2 (rs ++ (a.runOps ops).1) := by
  induction ops with
  | nil => intro a rs _ h; simpa [Arena.runOps] using h
  | cons op ops ih =>
    intro a rs hb h
    have h2 := ih (a.runOp op).2 (rs ++ [((a.runOp op).1, Op.bytes op)])
      (fun o ho => hb o (List.mem_cons_of_mem _ ho))
      (runOp_inv a op rs (hb op (List.mem_cons_self _ _)) h)
    simp only [Arena.runOps]
    rw [List.append_assoc] at h2
    simpa using h2

/-- Range disjointness is a decidable relation. -/
instance : DecidableRel RangesDisjoint := fun r1 r2 =>
  inferInstanceAs (Decidable (r1.1 + r1.2 ≤ r2.1 ∨ r2.1 + r2.2 ≤ r1.1))

/-- C1 counterexample: the program itself hands out overlapping ranges.
After Allocate(1) the cursor is at residue 1, so AllocateAligned sees
slop 7 and the request AllocateAligned(2^64 - 5) wraps
`size_t needed = bytes + slop` to 2; the source serves it from the active
block at base cursor+7, and the next Allocate(16) is carved out of bytes
the wrapped request already covers. -/
theorem allocations_overlap_counterexample :
    ¬ (((Arena.init 0).runOps
        [Op.alloc 1, Op.allocAligned (2 ^ 64 - 5), Op.alloc 16]).1.Pairwise
        RangesDisjoint) := by
  decide

/-- C1 (amended): for every sequence of successful allocations with
positive sizes, each at most 2^64 - 8 so that `bytes + slop` cannot wrap
around the size_t arithmetic of AllocateAligned, the returned byte ranges
are pairwise disjoint, across all blocks and for the whole lifetime of
the arena. -/
theorem allocations_pairwise_disjoint (h0 : Nat) (ops : List Op)
    (_hpos : ∀ op ∈ ops, 0 < Op.bytes op)
    (hbound : ∀ op ∈ ops, Op.bytes op ≤ 2 ^ 64 - 8) :
    ((Arena.init h0).runOps ops).1.Pairwise RangesDisjoint := by
  have h := runOps_inv ops (Arena.init h0) [] hbound
    ⟨List.Pairwise.nil, by simp, by simp, by simp [Arena.init]⟩
  simpa using h.1

/-- Witness for C1 on a mixed small/aligned/large trace. -/
theorem allocations_pairwise_disjoint_witness :
    ((Arena.init 0).runOps
      [Op.alloc 1, Op.allocAligned 2, Op.alloc 2000]).1.Pairwise
      RangesDisjoint :=
  allocations_pairwise_disjoint 0
    [Op.alloc 1, Op.allocAligned 2, Op.alloc 2000] (by decide) (by decide)

/-! ## Full period of the PRNG (C6)

The generator has full period because A = 16807 is a primitive root modulo
the Mersenne prime M = 2^31 - 1.  The order of A is certified by verified
modular exponentiation: A^(M-1) = 1 mod M while A^((M-1)/q) differs from 1
for every prime q dividing M - 1 = 2 * 3^2 * 7 * 11 * 31 * 151 * 331. -/

/-- Fuel-driven square-and-multiply modular exponentiation, written with
structural recursion so the kernel can evaluate it on large exponents. -/
def powMod : Nat → Nat → Nat → Nat → Nat
  | 0, m, _, _ => 1 % m
  | fuel + 1, m, a, n =>
    if n = 0 then 1 % m
    else
      let h := powMod fuel m (a * a % m) (n / 2)
      if n % 2 = 0 then h else h * a % m

/-- powMod computes exponentiation mod m when given enough fuel. -/
theorem powMod_correct : ∀ (fuel m a n : Nat), n < 2 ^ fuel →
    powMod fuel m a n = a ^ n % m := by
  intro fuel
  induction fuel with
  | zero =>
    intro m a n hn
    have h0 : n = 0 := by omega
    subst h0
    simp [powMod]
  | succ fuel ih =>
    intro m a n hn
    by_cases h0 : n = 0
    · subst h0; simp [powMod]
    · have hrec : powMod fuel m (a * a % m) (n / 2) = (a * a) ^ (n / 2) % m := by
        rw [ih m (a * a % m) (n / 2) (by omega), ← Nat.pow_mod]
      have hsq : (a * a) ^ (n / 2) = a ^ (2 * (n / 2)) := by
        rw [two_mul, pow_add]
        exact mul_pow a a (n / 2)
      simp only [powMod, if_neg h0]
      split
      · next hev =>
        have h2 : 2 * (n / 2) = n := by omega
        rw [hrec, hsq, h2]
      · next hodd =>
        have h2 : 2 * (n / 2) + 1 = n := by omega
        rw [hrec, hsq, Nat.mod_mul_mod, ← pow_succ, h2]

/-- The base step A^(M-1) mod M = 1, by verified computation. -/
theorem powMod_A_full : powMod 40 2147483647 16807 2147483646 = 1 := by decide

/-- A^(M-1) = 1 in ZMod M. -/
theorem A_pow_card_sub_one :
    ((16807 : Nat) : ZMod 2147483647) ^ 2147483646 = 1 := by
  have hc : (16807 : Nat) ^ 2147483646 % 2147483647 = 1 := by
    rw [← powMod_correct 40 2147483647 16807 2147483646 (by norm_num)]
    exact powMod_A_full
  calc ((16807 : Nat) : ZMod 2147483647) ^ 2147483646
      = (((16807 : Nat) ^ 2147483646 : Nat) : ZMod 2147483647) := by
        rw [Nat.cast_pow]
    _ = (((16807 : Nat) ^ 2147483646 % 2147483647 : Nat) : ZMod 2147483647) := by
        rw [ZMod.natCast_mod]
    _ = 1 := by rw [hc]; exact Nat.cast_one

/-- If the verified computation of A^d mod M is not 1 then A^d differs
from 1 in ZMod M. -/
theorem A_pow_ne_one_of_powMod (d : Nat) (hd : d < 2 ^ 40)
    (hne : powMod 40 2147483647 16807 d ≠ 1) :
    ((16807 : Nat) : ZMod 2147483647) ^ d ≠ 1 := by
  intro h
  apply hne
  rw [powMod_correct 40 2147483647 16807 d hd]
  have hcast : (((16807 : Nat) ^ d % 2147483647 : Nat) : ZMod 2147483647) =
      ((16807 : Nat) : ZMod 2147483647) ^ d := by
    rw [ZMod.natCast_mod, Nat.cast_pow]
  rw [h] at hcast
  haveI : Fact (1 < 2147483647) := ⟨by norm_num⟩
  have hval := congrArg ZMod.val hcast
  rw [ZMod.val_cast_of_lt (Nat.mod_lt _ (by norm_num)), ZMod.val_one] at hval
  exact hval

/-- The factorization of M - 1. -/
theorem M_sub_one_factored :
    (2147483646 : Nat) = 2 * (3 * (3 * (7 * (11 * (31 * (151 * 331)))))) := by
  norm_num

/-- The prime divisors of M - 1 are 2, 3, 7, 11, 31, 151 and 331. -/
theorem prime_divisors_M_sub_one (p : Nat) (hp : p.Prime)
    (hdvd : p ∣ 2147483646) :
    p = 2 ∨ p = 3 ∨ p = 7 ∨ p = 11 ∨ p = 31 ∨ p = 151 ∨ p = 331 := by
  rw [M_sub_one_factored] at hdvd
  have e2 : p ∣ 2 → p = 2 := fun h =>
    (Nat.prime_dvd_prime_iff_eq hp (by norm_num)).mp h
  have e3 : p ∣ 3 → p = 3 := fun h =>
    (Nat.prime_dvd_prime_iff_eq hp (by norm_num)).mp h
  have e7 : p ∣ 7 → p = 7 := fun h =>
    (Nat.prime_dvd_prime_iff_eq hp (by norm_num)).mp h
  have e11 : p ∣ 11 → p = 11 := fun h =>
    (Nat.prime_dvd_prime_iff_eq hp (by norm_num)).mp h
  have e31 : p ∣ 31 → p = 31 := fun h =>
    (Nat.prime_dvd_prime_iff_eq hp (by norm_num)).mp h
  have e151 : p ∣ 151 → p = 151 := fun h =>
    (Nat.prime_dvd_prime_iff_eq hp (by norm_num)).mp h
  have e331 : p ∣ 331 → p = 331 := fun h =>
    (Nat.prime_dvd_prime_iff_eq hp (by norm_num)).mp h
  rcases (Nat.Prime.dvd_mul hp).mp hdvd with h | h
  · exact Or.inl (e2 h)
  rcases (Nat.Prime.dvd_mul hp).mp h with h | h
  · exact Or.inr (Or.inl (e3 h))
  rcases (Nat.Prime.dvd_mul hp).mp h with h | h
  · exact Or.inr (Or.inl (e3 h))
  rcases (Nat.Prime.dvd_mul hp).mp h with h | h
  · exact Or.inr (Or.inr (Or.inl (e7 h)))
  rcases (Nat.Prime.dvd_mul hp).mp h with h | h
  · exact Or.inr (Or.inr (Or.inr (Or.inl (e11 h))))
  rcases (Nat.Prime.dvd_mul hp).mp h with h | h
  · exact Or.inr (Or.inr (Or.inr (Or.inr (Or.inl (e31 h)))))
  rcases (Nat.Prime.dvd_mul hp).mp h with h | h
  · exact Or.inr (Or.inr (Or.inr (Or.inr (Or.inr (Or.inl (e151 h))))))
  · exact Or.inr (Or.inr (Or.inr (Or.inr (Or.inr (Or.inr (e331 h))))))

/-- For every prime q dividing M - 1, A^((M-1)/q) differs from 1. -/
theorem A_pow_div_prime_ne_one (q : Nat) (hq : q.Prime)
    (hdvd : q ∣ 2147483646) :
    ((16807 : Nat) : ZMod 2147483647) ^ (2147483646 / q) ≠ 1 := by
  rcases prime_divisors_M_sub_one q hq hdvd with h | h | h | h | h | h | h <;>
    subst h
  · have hd : (2147483646 : Nat) / 2 = 1073741823 := by norm_num
    rw [hd]
    exact A_pow_ne_one_of_powMod 1073741823 (by norm_num) (by decide)
  · have hd : (2147483646 : Nat) / 3 = 715827882 := by norm_num
    rw [hd]
    exact A_pow_ne_one_of_powMod 715827882 (by norm_num) (by decide)
  · have hd : (2147483646 : Nat) / 7 = 306783378 := by norm_num
    rw [hd]
    exact A_pow_ne_one_of_powMod 306783378 (by norm_num) (by decide)
  · have hd : (2147483646 : Nat) / 11 = 195225786 := by norm_num
    rw [hd]
    exact A_pow_ne_one_of_powMod 195225786 (by norm_num) (by decide)
  · have hd : (2147483646 : Nat) / 31 = 69273666 := by norm_num
    rw [hd]
    exact A_pow_ne_one_of_powMod 69273666 (by norm_num) (by decide)
  · have hd : (2147483646 : Nat) / 151 = 14221746 := by norm_num
    rw [hd]
    exact A_pow_ne_one_of_powMod 14221746 (by norm_num) (by decide)
  · have hd : (2147483646 : Nat) / 331 = 6487866 := by norm_num
    rw [hd]
    exact A_pow_ne_one_of_powMod 6487866 (by norm_num) (by decide)

/-- M is prime, by the Lucas primality certificate built from the powMod
computations above. -/
theorem M_prime : Nat.Prime 2147483647 := by
  have h1 : ((16807 : Nat) : ZMod 2147483647) ^ (2147483647 - 1) = 1 := by
    have he : (2147483647 : Nat) - 1 = 2147483646 := by norm_num
    rw [he]; exact A_pow_card_sub_one
  have h2 : ∀ q : Nat, q.Prime → q ∣ (2147483647 - 1) →
      ((16807 : Nat) : ZMod 2147483647) ^ ((2147483647 - 1) / q) ≠ 1 := by
    intro q hq hdvd
    have he : (2147483647 : Nat) - 1 = 2147483646 := by norm_num
    rw [he] at hdvd ⊢
    exact A_pow_div_prime_ne_one q hq hdvd
  exact lucas_primality 2147483647 ((16807 : Nat) : ZMod 2147483647) h1 h2

/-- A is a primitive root: its order in ZMod M is exactly M - 1. -/
theorem orderOf_A_eq : orderOf ((16807 : Nat) : ZMod 2147483647) = 2147483646 :=
  orderOf_eq_of_pow_and_pow_div_prime (by norm_num) A_pow_card_sub_one
    A_pow_div_prime_ne_one

/-- The cast of A into ZMod M is nonzero. -/
theorem A_cast_ne_zero : ((16807 : Nat) : ZMod 2147483647) ≠ 0 := by
  intro h
  have hval := congrArg ZMod.val h
  rw [ZMod.val_cast_of_lt (by norm_num), ZMod.val_zero] at hval
  norm_num at hval

/-- Iterating Next from a legal seed computes s * A^i mod M. -/
theorem Next_iterate (s : Nat) (h1 : 1 ≤ s) (h2 : s ≤ 2147483646) :
    ∀ i, Random.Next^[i] s = s * 16807 ^ i % 2147483647 := by
  intro i
  induction i with
  | zero =>
    simp only [Function.iterate_zero_apply, pow_zero, mul_one]
    exact (Nat.mod_eq_of_lt (by omega)).symm
  | succ i ih =>
    rw [Function.iterate_succ_apply', ih]
    have htlt : s * 16807 ^ i % 2147483647 < 2147483647 :=
      Nat.mod_lt _ (by norm_num)
    have htne : s * 16807 ^ i % 2147483647 ≠ 0 := by
      intro h0
      have hdvd : (2147483647 : Nat) ∣ s * 16807 ^ i :=
        Nat.dvd_of_mod_eq_zero h0
      rcases (Nat.Prime.dvd_mul M_prime).mp hdvd with h | h
      · have := Nat.le_of_dvd (by omega) h
        omega
      · have h16 := Nat.Prime.dvd_of_dvd_pow M_prime h
        have := Nat.le_of_dvd (by norm_num) h16
        omega
    have hnext := Next_eq_formula (s * 16807 ^ i % 2147483647)
      (by omega) (by omega)
    rw [hnext]
    simp only [A, M]
    rw [Nat.mod_mul_mod, mul_assoc, ← pow_succ]

/-- Casting the i-th iterate into ZMod M gives s * A^i there. -/
theorem Next_iterate_cast (s : Nat) (h1 : 1 ≤ s) (h2 : s ≤ 2147483646)
    (i : Nat) :
    ((Random.Next^[i] s : Nat) : ZMod 2147483647) =
      ((s : Nat) : ZMod 2147483647) * ((16807 : Nat) : ZMod 2147483647) ^ i := by
  rw [Next_iterate s h1 h2 i, ZMod.natCast_mod, Nat.cast_mul, Nat.cast_pow]

/-- Powers of A with exponents less than M - 1 apart are distinct. -/
theorem pow_A_inj_aux (i j : Nat) (hij : i ≤ j) (hj : j - i < 2147483646)
    (heq : ((16807 : Nat) : ZMod 2147483647) ^ i =
      ((16807 : Nat) : ZMod 2147483647) ^ j) : i = j := by
  haveI : Fact (Nat.Prime 2147483647) := ⟨M_prime⟩
  have hsplit : ((16807 : Nat) : ZMod 2147483647) ^ j =
      ((16807 : Nat) : ZMod 2147483647) ^ i *
        ((16807 : Nat) : ZMod 2147483647) ^ (j - i) := by
    rw [← pow_add]
    congr 1
    omega
  have hpne : ((16807 : Nat) : ZMod 2147483647) ^ i ≠ 0 :=
    pow_ne_zero _ A_cast_ne_zero
  have heq' : ((16807 : Nat) : ZMod 2147483647) ^ i * 1 =
      ((16807 : Nat) : ZMod 2147483647) ^ i *
        ((16807 : Nat) : ZMod 2147483647) ^ (j - i) := by
    rw [mul_one, ← hsplit]
    exact heq
  have hone := (mul_left_cancel₀ hpne heq').symm
  have hdvd := orderOf_dvd_of_pow_eq_one hone
  rw [orderOf_A_eq] at hdvd
  have := Nat.eq_zero_of_dvd_of_lt hdvd hj
  omega

/-- Every nonzero residue mod M is a power of A with exponent below
M - 1. -/
theorem exists_pow_A_eq (c : ZMod 2147483647) (hc : c ≠ 0) :
    ∃ i, i < 2147483646 ∧ ((16807 : Nat) : ZMod 2147483647) ^ i = c := by
  haveI : Fact (Nat.Prime 2147483647) := ⟨M_prime⟩
  classical
  have hinj : Set.InjOn (fun i => ((16807 : Nat) : ZMod 2147483647) ^ i)
      ((Finset.range 2147483646) : Set Nat) := by
    intro i hi j hj hij
    simp only [Finset.coe_range, Set.mem_Iio] at hi hj
    rcases Nat.le_total i j with h | h
    · exact pow_A_inj_aux i j h (by omega) hij
    · exact (pow_A_inj_aux j i h (by omega) hij.symm).symm
  have hcard : ((Finset.range 2147483646).image
      (fun i => ((16807 : Nat) : ZMod 2147483647) ^ i)).card = 2147483646 := by
    rw [Finset.card_image_of_injOn hinj, Finset.card_range]
  have hsub : (Finset.range 2147483646).image
      (fun i => ((16807 : Nat) : ZMod 2147483647) ^ i) ⊆
        Finset.univ.erase 0 := by
    intro x hx
    obtain ⟨i, _, hxi⟩ := Finset.mem_image.mp hx
    rw [Finset.mem_erase]
    exact ⟨hxi ▸ pow_ne_zero i A_cast_ne_zero, Finset.mem_univ x⟩
  have hcard2 : (Finset.univ.erase (0 : ZMod 2147483647)).card = 2147483646 := by
    rw [Finset.card_erase_of_mem (Finset.mem_univ 0), Finset.card_univ,
      ZMod.card]
  have hSeq : (Finset.range 2147483646).image
      (fun i => ((16807 : Nat) : ZMod 2147483647) ^ i) =
        Finset.univ.erase 0 :=
    Finset.eq_of_subset_of_card_le hsub (by omega)
  have hcS : c ∈ (Finset.range 2147483646).image
      (fun i => ((16807 : Nat) : ZMod 2147483647) ^ i) := by
    rw [hSeq, Finset.mem_erase]
    exact ⟨hc, Finset.mem_univ c⟩
  obtain ⟨i, hi, hie⟩ := Finset.mem_image.mp hcS
  exact ⟨i, Finset.mem_range.mp hi, hie⟩

/-- Nat values below M are determined by their residue class. -/
theorem nat_eq_of_cast_eq (x y : Nat) (hx : x < 2147483647)
    (hy : y < 2147483647)
    (h : ((x : Nat) : ZMod 2147483647) = ((y : Nat) : ZMod 2147483647)) :
    x = y := by
  have hval := congrArg ZMod.val h
  rwa [ZMod.val_cast_of_lt hx, ZMod.val_cast_of_lt hy] at hval

/-- Iterating Next N times returns to the seed whenever A^N mod M is 1.
The exponent stays symbolic so that no tactic step normalizes the
astronomically large power. -/
theorem periodic_aux (s N : Nat) (h1 : 1 ≤ s) (h2' : s ≤ 2147483646)
    (hA1 : (16807 : Nat) ^ N % 2147483647 = 1) :
    Random.Next^[N] s = s := by
  rw [Next_iterate s h1 h2' N, Nat.mul_mod, hA1, mul_one]
  omega

/-- The Nat-level computation A^(M-1) mod M = 1. -/
theorem A_pow_full_mod : (16807 : Nat) ^ 2147483646 % 2147483647 = 1 := by
  rw [← powMod_correct 40 2147483647 16807 2147483646 (by norm_num)]
  exact powMod_A_full

/-- C6: starting from any legal seed in [1, 2^31-2], repeated calls to
Next() visit every integer in [1, M-1] exactly once before the sequence
repeats: the (M-1)-th iterate returns to the seed, and every value in
[1, M-1] is produced by exactly one of the first M-1 draws. -/
theorem Next_full_period (s : Nat) (h1 : 1 ≤ s) (h2 : s ≤ 2 ^ 31 - 2) :
    Random.Next^[2147483646] s = s ∧
    (∀ v, 1 ≤ v → v ≤ 2147483646 →
      ∃! i, 1 ≤ i ∧ i ≤ 2147483646 ∧ Random.Next^[i] s = v) := by
  have h2' : s ≤ 2147483646 := by omega
  haveI : Fact (Nat.Prime 2147483647) := ⟨M_prime⟩
  have hsne : ((s : Nat) : ZMod 2147483647) ≠ 0 := by
    intro h
    have hval := congrArg ZMod.val h
    rw [ZMod.val_cast_of_lt (by omega), ZMod.val_zero] at hval
    omega
  constructor
  · exact periodic_aux s 2147483646 h1 h2' A_pow_full_mod
  · intro v hv1 hv2
    have hvne : ((v : Nat) : ZMod 2147483647) ≠ 0 := by
      intro h
      have hval := congrArg ZMod.val h
      rw [ZMod.val_cast_of_lt (by omega), ZMod.val_zero] at hval
      omega
    obtain ⟨i, hilt, hie⟩ := exists_pow_A_eq
      (((v : Nat) : ZMod 2147483647) * (((s : Nat) : ZMod 2147483647))⁻¹)
      (mul_ne_zero hvne (inv_ne_zero hsne))
    have hsi : ((s : Nat) : ZMod 2147483647) *
        ((16807 : Nat) : ZMod 2147483647) ^ i =
          ((v : Nat) : ZMod 2147483647) := by
      rw [hie, mul_comm, mul_assoc, inv_mul_cancel₀ hsne, mul_one]
    -- shift the exponent from [0, M-2] into [1, M-1] using a^(M-1) = 1
    have hkey : ∀ j, 1 ≤ j → j ≤ 2147483646 →
        ((16807 : Nat) : ZMod 2147483647) ^ j =
          ((16807 : Nat) : ZMod 2147483647) ^ i →
        Random.Next^[j] s = v := by
      intro j _ _ hji
      apply nat_eq_of_cast_eq _ _ ?_ (by omega)
      · rw [Next_iterate_cast s h1 h2' j, hji, hsi]
      · rw [Next_iterate s h1 h2' j]
        exact Nat.mod_lt _ (by norm_num)
    by_cases hi0 : i = 0
    · refine ⟨2147483646, ⟨by omega, by omega, ?_⟩, ?_⟩
      · apply hkey 2147483646 (by omega) (by omega)
        rw [hi0, pow_zero]
        exact A_pow_card_sub_one
      · rintro k ⟨hk1, hk2, hkv⟩
        -- k is also a preimage; show k = M - 1
        have hck : ((s : Nat) : ZMod 2147483647) *
            ((16807 : Nat) : ZMod 2147483647) ^ k =
              ((v : Nat) : ZMod 2147483647) := by
          rw [← Next_iterate_cast s h1 h2' k, hkv]
        have hpk : ((16807 : Nat) : ZMod 2147483647) ^ k =
            ((16807 : Nat) : ZMod 2147483647) ^ 2147483646 := by
          have h01 := mul_left_cancel₀ hsne (hck.trans hsi.symm)
          rw [h01, hi0, pow_zero, A_pow_card_sub_one]
        exact pow_A_inj_aux k 2147483646 (by omega) (by omega) hpk
    · refine ⟨i, ⟨by omega, by omega, ?_⟩, ?_⟩
      · exact hkey i (by omega) (by omega) rfl
      · rintro k ⟨hk1, hk2, hkv⟩
        have hck : ((s : Nat) : ZMod 2147483647) *
            ((16807 : Nat) : ZMod 2147483647) ^ k =
              ((v : Nat) : ZMod 2147483647) := by
          rw [← Next_iterate_cast s h1 h2' k, hkv]
        have hpk : ((16807 : Nat) : ZMod 2147483647) ^ k =
            ((16807 : Nat) : ZMod 2147483647) ^ i := by
          exact mul_left_cancel₀ hsne (hck.trans hsi.symm)
        rcases Nat.le_total k i with h | h
        · exact pow_A_inj_aux k i h (by omega) hpk
        · exact (pow_A_inj_aux i k h (by omega) hpk.symm).symm

/-- Witness for C6 at seed 1. -/
theorem Next_full_period_witness :
    Random.Next^[2147483646] 1 = 1 ∧
    (∀ v, 1 ≤ v → v ≤ 2147483646 →
      ∃! i, 1 ≤ i ∧ i ≤ 2147483646 ∧ Random.Next^[i] 1 = v) :=
  Next_full_period 1 (by decide) (by decide)

end Leveldb
